import Mathlib

/-!
Verification of the web-API import pipeline of the Zotero/Obsidian
integration.  The TypeScript sources are embedded shallowly:

* `src/unnamed/part_003` (collections): `buildCollectionsWithFullPath`,
  its memoising `getInfo` and the cycle-protected `buildPath` walk,
  modelled with an explicit `ResolverState` (cache plus fetch log) and a
  fuel parameter for the recursive upward walk.  The remote library is a
  finite list of `CollectionInfo` records looked up by key, standing for
  the external collection-fetch collaborator.
* `src/src/webapi/features.ts`: the search-hit and item-detail
  normalizers (`webApiSearchItems`, `webApiGetItem`).
* `src/unnamed/part_002`: `buildWebApiTemplateData` and the
  `runWebApiImport` orchestrator.

JavaScript truthiness on optional strings (`||`, `??`, `!x`) is modelled
by `strTruthy`, `tsOr` and `tsCoalesce`.
-/

/-- JavaScript truthiness of an optional string: `undefined`/`null` and
the empty string are falsy, every other string is truthy. -/
def strTruthy : Option String → Bool
  | none => false
  | some s => s ≠ ""

/-- JavaScript `a || b` on optional strings: `a` when truthy, else `b`. -/
def tsOr (a b : Option String) : Option String :=
  if strTruthy a then a else b

/-- JavaScript `a ?? b` (nullish coalescing): `a` when present, else `b`. -/
def tsCoalesce {α : Type} (a b : Option α) : Option α :=
  match a with
  | some x => some x
  | none => b

/-- JavaScript template-literal interpolation of a possibly-undefined
string (an absent value prints as the string `undefined`). -/
def tsStr : Option String → String
  | none => "undefined"
  | some s => s

/-- Root-to-leaf segments joined by `/` (the spec's wording for
`fullPath`). -/
def joinPath : List String → String
  | [] => ""
  | [x] => x
  | x :: y :: rest => x ++ "/" ++ joinPath (y :: rest)

/-! ## Collection path resolver (src/unnamed/part_003) -/

/-- One node of the remote collection hierarchy, as extracted by
`extractCollectionInfo`. -/
structure CollectionInfo where
  key : String
  name : String
  parentCollection : Option String
deriving Repr, DecidableEq

/-- A resolved collection: `fullPath` is the `/`-joined root-to-node
name chain. -/
structure CollectionWithPath where
  key : String
  name : String
  fullPath : String
deriving Repr, DecidableEq

/-- The remote library: `fetchCollectionInfo` succeeds exactly on the
keys present in this list (first entry with a matching `key` field
wins); a missing key makes the remote fetch reject. -/
def envFind (env : List CollectionInfo) (k : String) : Option CollectionInfo :=
  env.find? (fun c => c.key == k)

/-- The per-call mutable state of `buildCollectionsWithFullPath`: the
`cache` map and, for fetch-count reasoning, the ordered log of keys for
which a remote fetch was actually issued.  (The `inFlight` map of the
source never holds an entry at an observation point in the sequential
`await` semantics, so it is not represented.) -/
structure ResolverState where
  cache : List (String × CollectionInfo)
  fetchLog : List String
deriving Repr, DecidableEq

/-- The state `buildCollectionsWithFullPath` starts from: both maps are
freshly created inside the function, scoped to the one call. -/
def emptyResolverState : ResolverState := ⟨[], []⟩

/-- Cache lookup, first matching key wins. -/
def cacheFind (s : ResolverState) (k : String) : Option CollectionInfo :=
  (s.cache.find? (fun p => p.1 == k)).map (fun p => p.2)

/-- `getInfo` of the source: serve from the cache, otherwise issue the
remote fetch (recorded in `fetchLog`), caching a successful result.  A
failed fetch rejects (`none`) after the request was issued. -/
def getInfo (env : List CollectionInfo) (k : String) (s : ResolverState) :
    Option CollectionInfo × ResolverState :=
  match cacheFind s k with
  | some info => (some info, s)
  | none =>
    match envFind env k with
    | some info => (some info, ⟨s.cache ++ [(k, info)], s.fetchLog ++ [k]⟩)
    | none => (none, ⟨s.cache, s.fetchLog ++ [k]⟩)

/-- The source's `if (!parentKey)` root test: `undefined`, `null` and
the empty string all mean "no parent". -/
def truthyParent : Option String → Option String
  | none => none
  | some p => if p = "" then none else some p

/-- `buildPath` of the source: walk `parentCollection` links upward,
stopping on a key already in `visiting` (cycle policy: that key's own
identifier terminates the path).  The source recurses unboundedly; here
the recursion carries fuel, and `buildCollectionsWithFullPath` passes
`env.length + 1`, which is proved sufficient (every recursive step adds
a fresh, fetchable key to `visiting`, so the depth is bounded by the
number of distinct library keys). -/
def buildPath (env : List CollectionInfo) :
    Nat → String → List String → ResolverState → Option String × ResolverState
  | 0, _, _, s => (none, s)
  | fuel + 1, key, visiting, s =>
    if key ∈ visiting then (some key, s)
    else
      match getInfo env key s with
      | (none, s1) => (none, s1)
      | (some info, s1) =>
        match truthyParent info.parentCollection with
        | none => (some info.name, s1)
        | some parentKey =>
          match buildPath env fuel parentKey (key :: visiting) s1 with
          | (none, s2) => (none, s2)
          | (some parentPath, s2) => (some (parentPath ++ "/" ++ info.name), s2)

/-- The result-building loop of `buildCollectionsWithFullPath` over the
filtered keys; a rejection at any step aborts the whole call. -/
def resolveLoop (env : List CollectionInfo) :
    List String → ResolverState → Option (List CollectionWithPath) × ResolverState
  | [], s => (some [], s)
  | key :: rest, s =>
    match getInfo env key s with
    | (none, s1) => (none, s1)
    | (some info, s1) =>
      match buildPath env (env.length + 1) key [] s1 with
      | (none, s2) => (none, s2)
      | (some fullPath, s2) =>
        match resolveLoop env rest s2 with
        | (none, s3) => (none, s3)
        | (some tail, s3) =>
          (some ({ key := info.key, name := info.name, fullPath := fullPath } :: tail), s3)

/-- `buildCollectionsWithFullPath` of the source: filter out falsy keys
(the variable is named `uniqueKeys` in the source but no de-duplication
is performed), then resolve each remaining key in order, starting from
fresh (empty) cache and in-flight maps. -/
def buildCollectionsWithFullPath (env : List CollectionInfo) (collectionKeys : List String) :
    Option (List CollectionWithPath) × ResolverState :=
  resolveLoop env (collectionKeys.filter (fun k => k != "")) emptyResolverState

/-! ### Resolver invariants -/

/-- Every cache entry is exactly what the library returns for its key. -/
def CacheWF (env : List CollectionInfo) (s : ResolverState) : Prop :=
  ∀ p ∈ s.cache, envFind env p.1 = some p.2

/-- Well-formed reachable state: cache sound, fetch log duplicate-free,
and every logged key has made it into the cache. -/
def StateWF (env : List CollectionInfo) (s : ResolverState) : Prop :=
  CacheWF env s ∧ s.fetchLog.Nodup ∧ ∀ k ∈ s.fetchLog, (cacheFind s k).isSome

instance (env : List CollectionInfo) (s : ResolverState) : Decidable (CacheWF env s) := by
  unfold CacheWF; infer_instance

instance (env : List CollectionInfo) (s : ResolverState) : Decidable (StateWF env s) := by
  unfold StateWF; infer_instance

theorem emptyResolverState_wf (env : List CollectionInfo) : StateWF env emptyResolverState := by
  refine ⟨?_, ?_, ?_⟩ <;> simp [emptyResolverState, CacheWF]

theorem envFind_key {env : List CollectionInfo} {k : String} {c : CollectionInfo}
    (h : envFind env k = some c) : c.key = k := by
  have := List.find?_some h
  simpa using this

theorem envFind_mem {env : List CollectionInfo} {k : String} {c : CollectionInfo}
    (h : envFind env k = some c) : c ∈ env :=
  List.mem_of_find?_eq_some h

theorem cacheFind_wf {env : List CollectionInfo} {s : ResolverState} {k : String}
    {c : CollectionInfo} (hwf : CacheWF env s) (h : cacheFind s k = some c) :
    envFind env k = some c := by
  unfold cacheFind at h
  cases hfind : s.cache.find? (fun p => p.1 == k) with
  | none => simp [hfind] at h
  | some p =>
    simp [hfind] at h
    have hmem : p ∈ s.cache := List.mem_of_find?_eq_some hfind
    have hk : p.1 = k := by simpa using List.find?_some hfind
    have := hwf p hmem
    rw [hk] at this
    rw [this, h]

/-- Under a sound cache, the value `getInfo` returns is exactly the
library's answer, whether served from cache or freshly fetched. -/
theorem getInfo_val {env : List CollectionInfo} {s : ResolverState} (k : String)
    (hwf : CacheWF env s) : (getInfo env k s).1 = envFind env k := by
  unfold getInfo
  cases hc : cacheFind s k with
  | some info => simp [cacheFind_wf hwf hc]
  | none => cases he : envFind env k <;> simp

/-- A key never logged is absent from the cache of a well-formed state
only if `cacheFind` misses; conversely a cache miss means the key was
never logged. -/
theorem not_logged_of_cache_miss {env : List CollectionInfo} {s : ResolverState} {k : String}
    (hwf : StateWF env s) (hmiss : cacheFind s k = none) : k ∉ s.fetchLog := by
  intro hmem
  have := hwf.2.2 k hmem
  rw [hmiss] at this
  simp at this

/-- Cache lookups survive extending the cache on the right. -/
theorem cacheFind_extend {s : ResolverState} {k k' : String} {info : CollectionInfo}
    {l : List String} (h : (cacheFind s k').isSome) :
    (cacheFind ⟨s.cache ++ [(k, info)], l⟩ k').isSome := by
  unfold cacheFind at h ⊢
  simp only [List.find?_append]
  cases hf : s.cache.find? (fun p => p.1 == k') with
  | none => rw [hf] at h; simp at h
  | some p => simp [hf]

/-- Successful `getInfo` preserves state well-formedness. -/
theorem getInfo_wf {env : List CollectionInfo} {s : ResolverState} {k : String}
    (hwf : StateWF env s) (hsucc : (getInfo env k s).1.isSome) :
    StateWF env (getInfo env k s).2 := by
  unfold getInfo at hsucc ⊢
  cases hc : cacheFind s k with
  | some info => simpa [hc] using hwf
  | none =>
    cases he : envFind env k with
    | none => rw [hc, he] at hsucc; simp at hsucc
    | some info =>
      dsimp only
      have hnl : k ∉ s.fetchLog := not_logged_of_cache_miss hwf hc
      refine ⟨?_, ?_, ?_⟩
      · intro p hp
        simp only [List.mem_append, List.mem_singleton] at hp
        rcases hp with hp | hp
        · exact hwf.1 p hp
        · subst hp; exact he
      · simpa [List.nodup_append] using ⟨hwf.2.1, hnl⟩
      · intro k' hk'
        simp only [List.mem_append, List.mem_singleton] at hk'
        rcases hk' with hk' | hk'
        · exact cacheFind_extend (hwf.2.2 k' hk')
        · subst hk'
          unfold cacheFind
          simp only [List.find?_append]
          cases hf : s.cache.find? (fun p => p.1 == k') with
          | none => simp [hf]
          | some p => simp [hf]

/-- A failed `getInfo` leaves the cache alone and its log still
duplicate-free (the failing key was never fetched before). -/
theorem getInfo_fail {env : List CollectionInfo} {s : ResolverState} {k : String}
    (hwf : StateWF env s) (hfail : (getInfo env k s).1 = none) :
    (getInfo env k s).2.cache = s.cache ∧ (getInfo env k s).2.fetchLog.Nodup := by
  unfold getInfo at *
  cases hc : cacheFind s k with
  | some info => simp [hc] at hfail
  | none =>
    cases he : envFind env k with
    | some info => simp [hc, he] at hfail
    | none =>
      have hnl : k ∉ s.fetchLog := not_logged_of_cache_miss hwf hc
      simp [hc, he, List.nodup_append, hwf.2.1, hnl]

/-! ### Value of the walk, independent of the cache state -/

/-- The value computed by `buildPath`, as a pure function of the
library: with a sound cache, caching is observationally invisible. -/
def buildPathPure (env : List CollectionInfo) :
    Nat → String → List String → Option String
  | 0, _, _ => none
  | fuel + 1, key, visiting =>
    if key ∈ visiting then some key
    else
      match envFind env key with
      | none => none
      | some info =>
        match truthyParent info.parentCollection with
        | none => some info.name
        | some parentKey =>
          (buildPathPure env fuel parentKey (key :: visiting)).map
            (fun parentPath => parentPath ++ "/" ++ info.name)

/-- Postcondition of one resolver computation: on success the full
state invariant holds, on failure the fetch log is still
duplicate-free. -/
def StepPost {α : Type} (env : List CollectionInfo) (r : Option α) (s' : ResolverState) : Prop :=
  match r with
  | some _ => StateWF env s'
  | none => s'.fetchLog.Nodup

theorem buildPath_post {env : List CollectionInfo} :
    ∀ (fuel : Nat) (key : String) (visiting : List String) (s : ResolverState),
      StateWF env s →
      StepPost env (buildPath env fuel key visiting s).1 (buildPath env fuel key visiting s).2 := by
  intro fuel
  induction fuel with
  | zero => intro key visiting s hwf; exact hwf.2.1
  | succ fuel ih =>
    intro key visiting s hwf
    unfold buildPath
    by_cases hv : key ∈ visiting
    · simpa [hv] using hwf
    · simp only [if_neg hv]
      cases hg : getInfo env key s with
      | mk v s1 =>
        cases v with
        | none =>
          have h2 := (getInfo_fail hwf (by rw [hg])).2
          rw [hg] at h2
          exact h2
        | some info =>
          have hs1 : StateWF env s1 := by
            have h2 := getInfo_wf hwf (by rw [hg]; rfl)
            rwa [hg] at h2
          dsimp only
          cases truthyParent info.parentCollection with
          | none => exact hs1
          | some parentKey =>
            dsimp only
            have hrec := ih parentKey (key :: visiting) s1 hs1
            cases hb : buildPath env fuel parentKey (key :: visiting) s1 with
            | mk r s2 =>
              rw [hb] at hrec
              cases r with
              | none => exact hrec
              | some parentPath => exact hrec

theorem buildPath_val {env : List CollectionInfo} :
    ∀ (fuel : Nat) (key : String) (visiting : List String) (s : ResolverState),
      StateWF env s →
      (buildPath env fuel key visiting s).1 = buildPathPure env fuel key visiting := by
  intro fuel
  induction fuel with
  | zero => intro key visiting s _; rfl
  | succ fuel ih =>
    intro key visiting s hwf
    unfold buildPath buildPathPure
    by_cases hv : key ∈ visiting
    · simp [hv]
    · simp only [if_neg hv]
      have hval : (getInfo env key s).1 = envFind env key := getInfo_val key hwf.1
      cases hg : getInfo env key s with
      | mk v s1 =>
        rw [hg] at hval
        dsimp at hval
        rw [← hval]
        cases v with
        | none => rfl
        | some info =>
          have hs1 : StateWF env s1 := by
            have h2 := getInfo_wf hwf (by rw [hg]; rfl)
            rwa [hg] at h2
          dsimp only
          cases truthyParent info.parentCollection with
          | none => rfl
          | some parentKey =>
            dsimp only
            have hrec := ih parentKey (key :: visiting) s1 hs1
            cases hb : buildPath env fuel parentKey (key :: visiting) s1 with
            | mk r s2 =>
              rw [hb] at hrec
              dsimp at hrec
              rw [← hrec]
              cases r with
              | none => rfl
              | some parentPath => rfl

/-- Pure value of the result loop. -/
def resolveListPure (env : List CollectionInfo) : List String → Option (List CollectionWithPath)
  | [] => some []
  | k :: rest =>
    match envFind env k with
    | none => none
    | some info =>
      match buildPathPure env (env.length + 1) k [] with
      | none => none
      | some fullPath =>
        (resolveListPure env rest).map
          (fun tail => { key := info.key, name := info.name, fullPath := fullPath } :: tail)

theorem resolveLoop_post {env : List CollectionInfo} :
    ∀ (ks : List String) (s : ResolverState), StateWF env s →
      StepPost env (resolveLoop env ks s).1 (resolveLoop env ks s).2 := by
  intro ks
  induction ks with
  | nil => intro s hwf; exact hwf
  | cons key rest ih =>
    intro s hwf
    unfold resolveLoop
    cases hg : getInfo env key s with
    | mk v s1 =>
      cases v with
      | none =>
        have h2 := (getInfo_fail hwf (by rw [hg])).2
        rw [hg] at h2
        exact h2
      | some info =>
        have hs1 : StateWF env s1 := by
          have h2 := getInfo_wf hwf (by rw [hg]; rfl)
          rwa [hg] at h2
        dsimp only
        have hbp := @buildPath_post env (env.length + 1) key [] s1 hs1
        cases hb : buildPath env (env.length + 1) key [] s1 with
        | mk r s2 =>
          rw [hb] at hbp
          cases r with
          | none => exact hbp
          | some fullPath =>
            dsimp only
            have hloop := ih s2 hbp
            cases hl : resolveLoop env rest s2 with
            | mk rs s3 =>
              rw [hl] at hloop
              cases rs with
              | none => exact hloop
              | some tail => exact hloop

theorem resolveLoop_val {env : List CollectionInfo} :
    ∀ (ks : List String) (s : ResolverState), StateWF env s →
      (resolveLoop env ks s).1 = resolveListPure env ks := by
  intro ks
  induction ks with
  | nil => intro s _; rfl
  | cons key rest ih =>
    intro s hwf
    unfold resolveLoop resolveListPure
    have hval : (getInfo env key s).1 = envFind env key := getInfo_val key hwf.1
    cases hg : getInfo env key s with
    | mk v s1 =>
      rw [hg] at hval
      dsimp at hval
      rw [← hval]
      cases v with
      | none => rfl
      | some info =>
        have hs1 : StateWF env s1 := by
          have h2 := getInfo_wf hwf (by rw [hg]; rfl)
          rwa [hg] at h2
        dsimp only
        have hbv := @buildPath_val env (env.length + 1) key [] s1 hs1
        have hbp := @buildPath_post env (env.length + 1) key [] s1 hs1
        cases hb : buildPath env (env.length + 1) key [] s1 with
        | mk r s2 =>
          rw [hb] at hbv hbp
          dsimp at hbv
          rw [← hbv]
          cases r with
          | none => rfl
          | some fullPath =>
            dsimp only
            have hloop := ih s2 hbp
            cases hl : resolveLoop env rest s2 with
            | mk rs s3 =>
              rw [hl] at hloop
              dsimp at hloop
              rw [← hloop]
              cases rs with
              | none => rfl
              | some tail => rfl

/-- The value of `buildCollectionsWithFullPath` is the pure resolution
of the falsy-filtered key list. -/
theorem buildCollections_val (env : List CollectionInfo) (collectionKeys : List String) :
    (buildCollectionsWithFullPath env collectionKeys).1 =
      resolveListPure env (collectionKeys.filter (fun k => k != "")) := by
  unfold buildCollectionsWithFullPath
  exact resolveLoop_val _ _ (emptyResolverState_wf env)

/-- Whatever happens during a call (success, missing collection,
cycle), the fetch log of the call never repeats a key. -/
theorem buildCollections_fetchLog_nodup (env : List CollectionInfo) (collectionKeys : List String) :
    (buildCollectionsWithFullPath env collectionKeys).2.fetchLog.Nodup := by
  unfold buildCollectionsWithFullPath
  have h := @resolveLoop_post env (collectionKeys.filter (fun k => k != ""))
    emptyResolverState (emptyResolverState_wf env)
  cases hr : (resolveLoop env (collectionKeys.filter (fun k => k != "")) emptyResolverState) with
  | mk r s =>
    rw [hr] at h
    cases r with
    | none => exact h
    | some res => exact h.2.1

/-- On success, the result entries are exactly the filtered input keys,
in order (duplicates included): each entry's `key` is the requested
key. -/
theorem resolveListPure_keys {env : List CollectionInfo} :
    ∀ {ks : List String} {res : List CollectionWithPath},
      resolveListPure env ks = some res → res.map (fun e => e.key) = ks := by
  intro ks
  induction ks with
  | nil => intro res h; simp [resolveListPure] at h; simp [← h]
  | cons key rest ih =>
    intro res h
    unfold resolveListPure at h
    cases he : envFind env key with
    | none => rw [he] at h; simp at h
    | some info =>
      rw [he] at h
      cases hb : buildPathPure env (env.length + 1) key [] with
      | none => rw [hb] at h; simp at h
      | some fullPath =>
        rw [hb] at h
        dsimp at h
        cases hl : resolveListPure env rest with
        | none => rw [hl] at h; simp at h
        | some tail =>
          rw [hl] at h
          simp at h
          rw [← h]
          simp [ih hl, envFind_key he]

/-- On success, every result entry's `fullPath` is the pure upward walk
from its key with an empty visiting set. -/
theorem resolveListPure_path {env : List CollectionInfo} :
    ∀ {ks : List String} {res : List CollectionWithPath},
      resolveListPure env ks = some res →
      ∀ e ∈ res, buildPathPure env (env.length + 1) e.key [] = some e.fullPath := by
  intro ks
  induction ks with
  | nil => intro res h e he; simp [resolveListPure] at h; subst h; simp at he
  | cons key rest ih =>
    intro res h e he
    unfold resolveListPure at h
    cases hef : envFind env key with
    | none => rw [hef] at h; simp at h
    | some info =>
      rw [hef] at h
      cases hb : buildPathPure env (env.length + 1) key [] with
      | none => rw [hb] at h; simp at h
      | some fullPath =>
        rw [hb] at h
        dsimp at h
        cases hl : resolveListPure env rest with
        | none => rw [hl] at h; simp at h
        | some tail =>
          rw [hl] at h
          simp at h
          rw [← h] at he
          rcases List.mem_cons.mp he with he1 | he1
          · rw [he1]
            dsimp
            rw [envFind_key hef, hb]
          · exact ih hl e he1

/-! ### Ancestor chains: the spec's root-to-node reading of `fullPath` -/

/-- `chainUpOk env k chain` holds when `chain` lists the library records
from the node with key `k` upward to its root: each element is what the
library returns for the key being walked, each non-final element points
to the next key via a truthy `parentCollection`, and the final element
is a root. -/
def chainUpOk (env : List CollectionInfo) : String → List CollectionInfo → Bool
  | _, [] => false
  | k, c :: rest =>
    (envFind env k == some c) &&
      match truthyParent c.parentCollection, rest with
      | none, [] => true
      | none, _ :: _ => false
      | some parentKey, rest => chainUpOk env parentKey rest

theorem joinPath_append (xs : List String) (y : String) (h : xs ≠ []) :
    joinPath (xs ++ [y]) = joinPath xs ++ "/" ++ y := by
  induction xs with
  | nil => cases h rfl
  | cons x xs ih =>
    cases xs with
    | nil => simp [joinPath]
    | cons a rest =>
      have hx := ih (by simp)
      simp only [List.cons_append] at hx ⊢
      rw [joinPath, joinPath]
      rw [hx]
      simp [String.append_assoc]

/-- The upward walk along a valid, duplicate-free ancestor chain whose
keys avoid the visiting set returns the root-to-node names joined by
`/`. -/
theorem buildPathPure_chain {env : List CollectionInfo} :
    ∀ (chain : List CollectionInfo) (k : String) (visiting : List String) (fuel : Nat),
      chainUpOk env k chain = true →
      (chain.map (fun c => c.key)).Nodup →
      (∀ c ∈ chain, c.key ∉ visiting) →
      chain.length ≤ fuel →
      buildPathPure env fuel k visiting =
        some (joinPath (chain.reverse.map (fun c => c.name))) := by
  intro chain
  induction chain with
  | nil => intro k visiting fuel h _ _ _; simp [chainUpOk] at h
  | cons c rest ih =>
    intro k visiting fuel h hnd hdisj hlen
    cases fuel with
    | zero => simp at hlen
    | succ fuel =>
      unfold chainUpOk at h
      rw [Bool.and_eq_true] at h
      obtain ⟨h1, h2⟩ := h
      have hek : envFind env k = some c := by simpa using h1
      have hkey : c.key = k := envFind_key hek
      have hkv : k ∉ visiting := by
        have hc := hdisj c (List.mem_cons_self c rest)
        rwa [hkey] at hc
      unfold buildPathPure
      rw [if_neg hkv, hek]
      dsimp only
      cases hp : truthyParent c.parentCollection with
      | none =>
        dsimp only
        cases rest with
        | nil => simp [joinPath]
        | cons d ds => rw [hp] at h2; simp at h2
      | some parentKey =>
        dsimp only
        cases rest with
        | nil => rw [hp] at h2; simp [chainUpOk] at h2
        | cons d ds =>
          rw [hp] at h2
          rw [List.map_cons] at hnd
          have hhead : c.key ∉ (d :: ds).map (fun c => c.key) := (List.nodup_cons.mp hnd).1
          have hnd' : ((d :: ds).map (fun c => c.key)).Nodup := (List.nodup_cons.mp hnd).2
          have hdisj' : ∀ c' ∈ d :: ds, c'.key ∉ k :: visiting := by
            intro c' hc'
            simp only [List.mem_cons, not_or]
            constructor
            · intro hkk
              apply hhead
              have hck : c.key = c'.key := by rw [hkey, hkk]
              rw [hck]
              exact List.mem_map_of_mem _ hc'
            · exact hdisj c' (List.mem_cons_of_mem _ hc')
          have hlen' : (d :: ds).length ≤ fuel := Nat.succ_le_succ_iff.mp hlen
          have hrec := ih parentKey (k :: visiting) fuel h2 hnd' hdisj' hlen'
          have hjoin : joinPath (((c :: d :: ds).reverse).map (fun c => c.name))
              = joinPath (((d :: ds).reverse).map (fun c => c.name)) ++ "/" ++ c.name := by
            rw [List.reverse_cons, List.map_append]
            simp only [List.map_cons, List.map_nil]
            rw [joinPath_append _ _ (by simp)]
          rw [hrec, hjoin]
          rfl

/-- Every record on a valid chain is the library's answer for its own
key. -/
theorem chainUpOk_mem {env : List CollectionInfo} :
    ∀ (chain : List CollectionInfo) (k : String), chainUpOk env k chain = true →
      ∀ c ∈ chain, c ∈ env := by
  intro chain
  induction chain with
  | nil => intro k h; simp [chainUpOk] at h
  | cons c rest ih =>
    intro k h c' hc'
    unfold chainUpOk at h
    rw [Bool.and_eq_true] at h
    obtain ⟨h1, h2⟩ := h
    have hek : envFind env k = some c := by simpa using h1
    rcases List.mem_cons.mp hc' with hc1 | hc1
    · rw [hc1]; exact envFind_mem hek
    · cases hp : truthyParent c.parentCollection with
      | none =>
        rw [hp] at h2
        cases rest with
        | nil => simp at hc1
        | cons d ds => simp at h2
      | some parentKey =>
        rw [hp] at h2
        exact ih parentKey h2 c' hc1

/-- A duplicate-free valid chain cannot be longer than the library. -/
theorem chainUpOk_length_le {env : List CollectionInfo} {chain : List CollectionInfo} {k : String}
    (h : chainUpOk env k chain = true) (hnd : (chain.map (fun c => c.key)).Nodup) :
    chain.length ≤ env.length := by
  have hsub : chain.map (fun c => c.key) ⊆ env.map (fun c => c.key) := by
    intro x hx
    rcases List.mem_map.mp hx with ⟨c, hc, hck⟩
    exact hck ▸ List.mem_map_of_mem _ (chainUpOk_mem chain k h c hc)
  have hle := (hnd.subperm hsub).length_le
  simpa using hle

/-! ### Fuel stability: the walk terminates within `env.length + 1` steps -/

/-- Number of distinct library keys not yet in the visiting set: the
measure that shrinks at every recursive step of `buildPath`. -/
def countFree (env : List CollectionInfo) (visiting : List String) : Nat :=
  (((env.map (fun c => c.key)).dedup).filter (fun k => !(visiting.contains k))).length

theorem length_filter_ne_lt {m : List String} {key : String} (h : key ∈ m) :
    (m.filter (fun x => !(x == key))).length < m.length := by
  induction m with
  | nil => cases h
  | cons a as ih =>
    by_cases ha : a = key
    · subst ha
      simp only [List.filter_cons, beq_self_eq_true, Bool.not_true, List.length_cons]
      exact Nat.lt_succ_of_le (List.length_filter_le _ _)
    · rcases List.mem_cons.mp h with h1 | h1
      · cases ha h1.symm
      · simp only [List.filter_cons, List.length_cons]
        have : (a == key) = false := beq_eq_false_iff_ne.mpr ha
        rw [this]
        simpa using Nat.succ_lt_succ (ih h1)

theorem countFree_cons_lt {env : List CollectionInfo} {key : String} {visiting : List String}
    (hk : key ∈ env.map (fun c => c.key)) (hv : key ∉ visiting) :
    countFree env (key :: visiting) < countFree env visiting := by
  unfold countFree
  have hpred : ∀ x : String,
      (!((key :: visiting).contains x)) = ((!(x == key)) && !(visiting.contains x)) := by
    intro x
    simp only [List.contains_cons, Bool.not_or]
  rw [List.filter_congr (fun x _ => hpred x)]
  have hsplit :
      ((env.map (fun c => c.key)).dedup).filter (fun x => (!(x == key)) && !(visiting.contains x))
        = (((env.map (fun c => c.key)).dedup).filter
            (fun x => !(visiting.contains x))).filter (fun x => !(x == key)) := by
    rw [List.filter_filter]
  rw [hsplit]
  apply length_filter_ne_lt
  rw [List.mem_filter]
  refine ⟨List.mem_dedup.mpr hk, ?_⟩
  simp [List.elem_eq_mem, hv]

theorem countFree_le (env : List CollectionInfo) (visiting : List String) :
    countFree env visiting ≤ env.length := by
  unfold countFree
  calc (((env.map (fun c => c.key)).dedup).filter (fun k => !(visiting.contains k))).length
      ≤ ((env.map (fun c => c.key)).dedup).length := List.length_filter_le _ _
    _ ≤ (env.map (fun c => c.key)).length := (List.dedup_sublist _).length_le
    _ = env.length := List.length_map _ _

/-- Once the fuel exceeds the number of distinct unvisited library keys,
its exact value is irrelevant: the walk finishes before exhausting it.
This is the termination content of the source's unbounded recursion. -/
theorem buildPath_fuel_stable {env : List CollectionInfo} :
    ∀ (f f' : Nat) (key : String) (visiting : List String) (s : ResolverState),
      StateWF env s → countFree env visiting < f → countFree env visiting < f' →
      buildPath env f key visiting s = buildPath env f' key visiting s := by
  intro f
  induction f using Nat.strong_induction_on with
  | _ f ih =>
    intro f' key visiting s hwf hf hf'
    cases f with
    | zero => omega
    | succ a =>
      cases f' with
      | zero => omega
      | succ b =>
        unfold buildPath
        by_cases hv : key ∈ visiting
        · simp [hv]
        · simp only [if_neg hv]
          have hval : (getInfo env key s).1 = envFind env key := getInfo_val key hwf.1
          cases hg : getInfo env key s with
          | mk v s1 =>
            rw [hg] at hval
            dsimp at hval
            cases v with
            | none => rfl
            | some info =>
              have hs1 : StateWF env s1 := by
                have h2 := getInfo_wf hwf (by rw [hg]; rfl)
                rwa [hg] at h2
              dsimp only
              cases truthyParent info.parentCollection with
              | none => rfl
              | some parentKey =>
                dsimp only
                have hek : envFind env key = some info := hval.symm
                have hkmem : key ∈ env.map (fun c => c.key) := by
                  rw [← envFind_key hek]
                  exact List.mem_map_of_mem _ (envFind_mem hek)
                have hlt := countFree_cons_lt hkmem hv
                have ha : countFree env (key :: visiting) < a :=
                  Nat.lt_of_lt_of_le hlt (Nat.lt_succ_iff.mp hf)
                have hb : countFree env (key :: visiting) < b :=
                  Nat.lt_of_lt_of_le hlt (Nat.lt_succ_iff.mp hf')
                rw [ih a (Nat.lt_succ_self a) b parentKey (key :: visiting) s1 hs1 ha hb]

/-! ## Claims C1-C4: the collection path resolver -/

/-- C1: in an acyclic hierarchy — witnessed, for the entry's key, by a
duplicate-free ancestor chain up to a root — every entry returned by
`buildCollectionsWithFullPath` has `fullPath` equal to the names of its
ancestors from the root down to the node itself, joined by `/`. -/
theorem claim_C1_fullPath_root_to_node {env : List CollectionInfo} {keys : List String}
    {res : List CollectionWithPath} {s : ResolverState}
    (hrun : buildCollectionsWithFullPath env keys = (some res, s))
    {e : CollectionWithPath} (he : e ∈ res)
    {chain : List CollectionInfo}
    (hchain : chainUpOk env e.key chain = true)
    (hnd : (chain.map (fun c => c.key)).Nodup) :
    e.fullPath = joinPath (chain.reverse.map (fun c => c.name)) := by
  have hval := buildCollections_val env keys
  rw [hrun] at hval
  dsimp at hval
  have hpath := resolveListPure_path hval.symm e he
  have hchainPath := buildPathPure_chain chain e.key [] (env.length + 1) hchain hnd
    (by intro c _; simp)
    (Nat.le_trans (chainUpOk_length_le hchain hnd) (Nat.le_succ _))
  rw [hpath] at hchainPath
  exact Option.some.inj hchainPath

/-- The two-node acyclic library of the spec's example: `A` a root, `B`
with parent `A`. -/
def envAB : List CollectionInfo :=
  [{ key := "A", name := "A name", parentCollection := none },
   { key := "B", name := "B name", parentCollection := some "A" }]

/-- Ancestor chain of `B` in `envAB`, node first. -/
def chainAB : List CollectionInfo :=
  [{ key := "B", name := "B name", parentCollection := some "A" },
   { key := "A", name := "A name", parentCollection := none }]

/-- Final resolver state of `buildCollectionsWithFullPath envAB ["B"]`. -/
def sAB : ResolverState :=
  ⟨[("B", { key := "B", name := "B name", parentCollection := some "A" }),
    ("A", { key := "A", name := "A name", parentCollection := none })], ["B", "A"]⟩

/-- Witness for C1: resolving `B` in the library `{A root, B below A}`
yields `fullPath = "A name/B name"`, the root-to-node join. -/
theorem claim_C1_witness :
    ({ key := "B", name := "B name", fullPath := "A name/B name" } : CollectionWithPath).fullPath
      = joinPath (chainAB.reverse.map (fun c => c.name)) :=
  @claim_C1_fullPath_root_to_node envAB ["B"]
    [{ key := "B", name := "B name", fullPath := "A name/B name" }] sAB (by decide)
    { key := "B", name := "B name", fullPath := "A name/B name" } (by decide)
    chainAB (by decide) (by decide)

/-- The mutually-referential library `X → Y → X`. -/
def envXY : List CollectionInfo :=
  [{ key := "X", name := "X name", parentCollection := some "Y" },
   { key := "Y", name := "Y name", parentCollection := some "X" }]

/-- C2: the resolver terminates on every graph, cycles included: a walk
reaching a key already in the visiting set stops at once and uses that
key's own identifier as the terminating segment; the fuel bound
`env.length + 1` used by `buildCollectionsWithFullPath` is exact (any
larger recursion allowance computes the same answer, which is the
termination content of the source's unbounded recursion); and on the
mutual cycle `X → Y → X` the call returns the finite path
`"X/Y name/X name"`. -/
theorem claim_C2_cycle_terminates :
    (∀ (env : List CollectionInfo) (fuel : Nat) (key : String) (visiting : List String)
        (s : ResolverState), key ∈ visiting → 0 < fuel →
        buildPath env fuel key visiting s = (some key, s)) ∧
    (∀ (env : List CollectionInfo) (fuel : Nat) (key : String) (s : ResolverState),
        StateWF env s → env.length + 1 ≤ fuel →
        buildPath env fuel key [] s = buildPath env (env.length + 1) key [] s) ∧
    (buildCollectionsWithFullPath envXY ["X"]).1
      = some [{ key := "X", name := "X name", fullPath := "X/Y name/X name" }] := by
  refine ⟨?_, ?_, ?_⟩
  · intro env fuel key visiting s hv hf
    cases fuel with
    | zero => exact absurd hf (by simp)
    | succ f => unfold buildPath; simp [hv]
  · intro env fuel key s hwf hf
    apply buildPath_fuel_stable
    · exact hwf
    · exact Nat.lt_of_le_of_lt (countFree_le env []) (by omega)
    · exact Nat.lt_of_le_of_lt (countFree_le env []) (by omega)
  · decide

/-- Witness for C2: a visiting-set hit returns the key itself, and on
`envXY` fuel 5 computes the same as the canonical fuel 3. -/
theorem claim_C2_witness :
    buildPath [] 1 "X" ["X"] emptyResolverState = (some "X", emptyResolverState) ∧
    buildPath envXY 5 "X" [] emptyResolverState
      = buildPath envXY 3 "X" [] emptyResolverState :=
  ⟨claim_C2_cycle_terminates.1 [] 1 "X" ["X"] emptyResolverState (by decide) (by decide),
   claim_C2_cycle_terminates.2.1 envXY 5 "X" emptyResolverState (by decide) (by decide)⟩

/-- The one-node library with the single root `A`. -/
def envA : List CollectionInfo := [{ key := "A", name := "A name", parentCollection := none }]

/-- C3 counterexample: the source filters falsy keys but does not
de-duplicate (despite the variable name `uniqueKeys`): the input
`["A", "A"]` yields two result entries, not one. -/
theorem claim_C3_counterexample :
    (buildCollectionsWithFullPath envA ["A", "A"]).1
      = some [{ key := "A", name := "A name", fullPath := "A name" },
              { key := "A", name := "A name", fullPath := "A name" }] ∧
    ¬((buildCollectionsWithFullPath envA ["A", "A"]).1.map List.length = some 1) := by
  constructor <;> decide

/-- C3 (amended): empty keys are filtered out before resolution, and
every surviving occurrence — duplicates included — produces its own
result entry, in input order (each entry's `key` being the requested
key; duplicate fetches are nevertheless prevented by the cache, see
C4's theorem). -/
theorem claim_C3_entries_match_filtered_keys {env : List CollectionInfo} {keys : List String}
    {res : List CollectionWithPath} {s : ResolverState}
    (hrun : buildCollectionsWithFullPath env keys = (some res, s)) :
    res.map (fun e => e.key) = keys.filter (fun k => k != "") := by
  have hval := buildCollections_val env keys
  rw [hrun] at hval
  dsimp at hval
  exact resolveListPure_keys hval.symm

/-- Final resolver state of `buildCollectionsWithFullPath envA ["", "A", "A"]`. -/
def sA2 : ResolverState :=
  ⟨[("A", { key := "A", name := "A name", parentCollection := none })], ["A"]⟩

/-- Witness for C3 (amended): `["", "A", "A"]` filters to `["A", "A"]`
and returns one entry per surviving occurrence. -/
theorem claim_C3_witness :
    ([{ key := "A", name := "A name", fullPath := "A name" },
      { key := "A", name := "A name", fullPath := "A name" }].map
        (fun e : CollectionWithPath => e.key))
      = (["", "A", "A"].filter (fun k => k != "")) :=
  @claim_C3_entries_match_filtered_keys envA ["", "A", "A"]
    [{ key := "A", name := "A name", fullPath := "A name" },
     { key := "A", name := "A name", fullPath := "A name" }] sA2 (by decide)

/-- C4 counterexample: the cache is created inside each
`buildCollectionsWithFullPath` call and does not survive it, so two
calls with the same key issue two fetches for that one unique key —
the second call does not hit the first call's cache. -/
theorem claim_C4_counterexample :
    (buildCollectionsWithFullPath envA ["A"]).2.fetchLog = ["A"] ∧
    ((buildCollectionsWithFullPath envA ["A"]).2.fetchLog
        ++ (buildCollectionsWithFullPath envA ["A"]).2.fetchLog).count "A" = 2 ∧
    ¬(((buildCollectionsWithFullPath envA ["A"]).2.fetchLog
        ++ (buildCollectionsWithFullPath envA ["A"]).2.fetchLog).count "A" ≤ 1) := by
  refine ⟨?_, ?_, ?_⟩ <;> decide

/-- C4 (amended): within a single `buildCollectionsWithFullPath` call,
each key is fetched at most once — the per-call cache (with the
sequential awaiting of the in-flight map) prevents any re-fetch, for
duplicate inputs and shared ancestors alike; the cache is scoped to the
call, not to a longer resolver lifetime. -/
theorem claim_C4_no_refetch_within_call (env : List CollectionInfo) (keys : List String) :
    (buildCollectionsWithFullPath env keys).2.fetchLog.Nodup :=
  buildCollections_fetchLog_nodup env keys

/-! ## Remote record normalizer (src/src/webapi/features.ts) -/

/-- One creator of a bibliographic item. -/
structure Creator where
  lastName : Option String
  firstName : Option String
deriving Repr, DecidableEq

/-- The raw `meta` sub-object of a remote item, as far as the
normalizer reads it. -/
structure RawMeta where
  title : Option String
deriving Repr, DecidableEq

/-- A bag of the raw fields the normalizer reads; the transport may
place these at the top level of an item, under its `data` sub-object,
or (for the cite-key fields and `collections`) in the raw response
metadata. `citationHyphenKey` stands for the hyphenated field
`citation-key`. -/
structure RawFields where
  key : Option String
  title : Option String
  itemType : Option String
  creators : Option (List Creator)
  date : Option String
  citationKey : Option String
  citationHyphenKey : Option String
  citation : Option String
  bib : Option String
  collections : Option (List String)
deriving Repr, DecidableEq

/-- A `RawFields` with nothing set. -/
def emptyRawFields : RawFields :=
  ⟨none, none, none, none, none, none, none, none, none, none⟩

/-- A raw remote item: its top-level fields and the optional `data` and
`meta` sub-objects (when `data` is absent the source falls back to the
item itself: `item.data ?? item`). -/
structure RawItem where
  fields : RawFields
  data : Option RawFields
  meta : Option RawMeta
deriving Repr, DecidableEq

/-- Modelled from the spec: the rich-text to plain-text conversion
(`htmlToMarkdown` of the host platform, an external collaborator per
spec section 1) is an unspecified pure transform; no claim depends on
its output, so it is taken as the identity. -/
def htmlToMarkdown (html : String) : String := html

/-- `htmlToMarkdownSafe` of the source: a null or non-string input
converts to the empty string instead of failing. -/
def htmlToMarkdownSafe : Option String → String
  | none => ""
  | some s => if s = "" then "" else htmlToMarkdown s

/-- The canonical search result (`WebApiSearchResult` of the source). -/
structure WebApiSearchResult where
  key : Option String
  title : Option String
  itemType : Option String
  creators : Option (List Creator)
  date : Option String
  citekey : Option String
  citation : String
  bibliography : String
deriving Repr, DecidableEq

/-- The per-item normalization inside `webApiSearchItems`:
`data = item.data ?? item`, `meta = item.meta ?? {}`, nullish fallbacks
for plain fields and the truthiness chain
`data.citationKey || data['citation-key'] || item.citationKey ||
item['citation-key']` for the cite key. -/
def normalizeSearchHit (item : RawItem) : WebApiSearchResult :=
  let data := item.data.getD item.fields
  let meta := item.meta.getD ⟨none⟩
  { key := tsCoalesce item.fields.key data.key
    title := tsCoalesce data.title (tsCoalesce meta.title item.fields.title)
    itemType := tsCoalesce data.itemType item.fields.itemType
    creators := tsCoalesce data.creators item.fields.creators
    date := tsCoalesce data.date item.fields.date
    citekey := tsOr data.citationKey (tsOr data.citationHyphenKey
      (tsOr item.fields.citationKey item.fields.citationHyphenKey))
    citation := htmlToMarkdownSafe item.fields.citation
    bibliography := htmlToMarkdownSafe item.fields.bib }

/-- `webApiSearchItems` of the source, after the transport layer: map
the normalization over the returned list. -/
def webApiSearchItems (items : List RawItem) : List WebApiSearchResult :=
  items.map normalizeSearchHit

/-- The `collections` slot of an item's data after `webApiGetItem`: it
may be absent, still hold the raw collection keys, or hold resolved
`CollectionWithPath` records (the source mutates `data.collections` in
place; the changing element type is made explicit here). -/
inductive CollectionsField where
  | absent : CollectionsField
  | keys (ks : List String) : CollectionsField
  | resolved (cs : List CollectionWithPath) : CollectionsField
deriving Repr, DecidableEq

/-- The two independent cite-key patches of `webApiGetItem`:
`if (!data.citationKey && rawData.citationKey) data.citationKey = ...`
and the same for the hyphenated field. -/
def patchCiteFields (data rawData : RawFields) : RawFields :=
  let d1 :=
    if !(strTruthy data.citationKey) && strTruthy rawData.citationKey then
      { data with citationKey := rawData.citationKey }
    else data
  if !(strTruthy d1.citationHyphenKey) && strTruthy rawData.citationHyphenKey then
    { d1 with citationHyphenKey := rawData.citationHyphenKey }
  else d1

/-- View an optional raw key list as a `CollectionsField`. -/
def collectionsFieldOf : Option (List String) → CollectionsField
  | none => CollectionsField.absent
  | some ks => CollectionsField.keys ks

/-- The collection-enrichment step of `webApiGetItem`:
`collectionKeys = rawData.collections ?? data.collections ?? []`; a
non-empty list is resolved, a resolution failure is only logged and
leaves `data.collections` unchanged. -/
def resolveDetailCollections (env : List CollectionInfo) (data rawData : RawFields) :
    CollectionsField :=
  let collectionKeys := (tsCoalesce rawData.collections data.collections).getD []
  if 0 < collectionKeys.length then
    match (buildCollectionsWithFullPath env collectionKeys).1 with
    | some resolved => CollectionsField.resolved resolved
    | none => collectionsFieldOf data.collections
  else collectionsFieldOf data.collections

/-- The canonical item detail returned by `webApiGetItem` (`key`,
patched `data`, converted citation/bibliography); `collections` is the
final state of the mutated `data.collections` slot. -/
structure WebApiItemDetail where
  key : Option String
  data : RawFields
  collections : CollectionsField
  citation : String
  bibliography : String
deriving Repr, DecidableEq

/-- `webApiGetItem` of the source, after the transport layer: `item?`
is `res.getData?.()` (`none` makes the function return `null`) and
`rawData` is `res.raw?.data ?? {}`; `env` is the collection library
used by the enrichment step. -/
def webApiGetItem (env : List CollectionInfo) (item? : Option RawItem) (rawData : RawFields) :
    Option WebApiItemDetail :=
  match item? with
  | none => none
  | some item =>
    let data0 := item.data.getD item.fields
    let data := patchCiteFields data0 rawData
    some { key := tsCoalesce item.fields.key data.key
           data := data
           collections := resolveDetailCollections env data rawData
           citation := htmlToMarkdownSafe item.fields.citation
           bibliography := htmlToMarkdownSafe item.fields.bib }

/-! ## Template input builder (src/unnamed/part_002) -/

/-- Library ownership of the remote library (`webApiLibraryType`). -/
inductive LibraryType where
  | user : LibraryType
  | group : LibraryType
deriving Repr, DecidableEq

/-- An export format, as far as the import path reads it. -/
structure ExportFormat where
  name : String
  outputPathTemplate : String
deriving Repr, DecidableEq

/-- The connector settings consumed by the web-API import path (other
settings fields are only forwarded to external collaborators). -/
structure ZoteroConnectorSettings where
  webApiEnabled : Bool
  webApiLibraryType : LibraryType
  webApiUserId : Option String
  webApiGroupId : Option String
  exportFormats : List ExportFormat
  openNoteAfterImport : Bool
deriving Repr, DecidableEq

/-- Modelled from the spec: `getLocalURI` (in `bbt/helpers`, outside
the provided sources) is the single indirection function through which
every link-like field is derived from the canonical `uri` (spec section
4.3); its exact output format is irrelevant to every claim. -/
def getLocalURI (kind uri : String) : String :=
  kind ++ "/" ++ uri

/-- `buildWebApiItemUri` of the source: the deterministic item URI from
library type, library id and item key (JavaScript template-literal
semantics: an absent id or key interpolates as `"undefined"`). -/
def buildWebApiItemUri (settings : ZoteroConnectorSettings) (itemKey : Option String) : String :=
  match settings.webApiLibraryType with
  | LibraryType.group =>
      "http://zotero.org/groups/" ++ tsStr settings.webApiGroupId ++ "/items/" ++ tsStr itemKey
  | LibraryType.user =>
      "http://zotero.org/users/" ++ tsStr settings.webApiUserId ++ "/items/" ++ tsStr itemKey

/-- The flat template input assembled by `buildWebApiTemplateData`: the
spread of the detail's `data` plus the derived fields.  The explicit
`key`/`itemKey` override the spread `data.key`, as in the source's
object literal. -/
structure TemplateData where
  data : RawFields
  collections : CollectionsField
  key : Option String
  itemKey : Option String
  uri : String
  citekey : Option String
  citationKey : Option String
  desktopURI : String
  select : String
  attachments : List String
  annotations : List String
  notes : List String
  citation : String
  bibliography : String
  lastImportDate : Int
  lastExportDate : Int
  isFirstImport : Bool
deriving Repr, DecidableEq

/-- Modelled from the spec: `applyBasicTemplates` (in
`bbt/basicTemplates`, outside the provided sources) is the external
templating collaborator (spec sections 1 and 4.3: the builder is a pure
function and the substitution engine is out of scope); it is modelled
as returning the assembled template input unchanged. -/
def applyBasicTemplates (sourcePath : String) (templateData : TemplateData) : TemplateData :=
  templateData

/-- `buildWebApiTemplateData` of the source: derive the cite key by
`data.citationKey || data['citation-key'] || detail.key`, the canonical
URI, the link-like fields through `getLocalURI`, and the import-history
flags from `lastImportDate` (a timestamp, `moment.valueOf()` modelled
as an integer; the epoch sentinel `moment(0)` is `0`). -/
def buildWebApiTemplateData (sourcePath : String) (detail : WebApiItemDetail)
    (settings : ZoteroConnectorSettings) (notes : List String) (lastImportDate : Int) :
    TemplateData :=
  let data := detail.data
  let citekey := tsOr data.citationKey (tsOr data.citationHyphenKey detail.key)
  let uri := buildWebApiItemUri settings detail.key
  applyBasicTemplates sourcePath
    { data := data
      collections := detail.collections
      key := detail.key
      itemKey := detail.key
      uri := uri
      citekey := citekey
      citationKey := citekey
      desktopURI := getLocalURI "select" uri
      select := getLocalURI "select" uri
      attachments := []
      annotations := []
      notes := notes
      citation := detail.citation
      bibliography := detail.bibliography
      lastImportDate := lastImportDate
      lastExportDate := lastImportDate
      isFirstImport := lastImportDate == 0 }

/-! ## Claims C5, C6, C7, C9, C10 -/

/-- Modelled from the spec: the claimed cite-key resolution order —
explicit camel-case field, explicit hyphenated field, then the same two
fields from the secondary raw-metadata location (spec section 4.2). -/
def specCiteKeyOrder (camel hyphen rawCamel rawHyphen : Option String) : Option String :=
  tsOr camel (tsOr hyphen (tsOr rawCamel rawHyphen))

/-- The cite-key patches leave the `key` field untouched. -/
theorem patchCiteFields_key (data rawData : RawFields) :
    (patchCiteFields data rawData).key = data.key := by
  unfold patchCiteFields
  by_cases h1 : !(strTruthy data.citationKey) && strTruthy rawData.citationKey <;>
    simp [h1] <;> split <;> simp

/-- The cite-key patches leave the `collections` field untouched. -/
theorem patchCiteFields_collections (data rawData : RawFields) :
    (patchCiteFields data rawData).collections = data.collections := by
  unfold patchCiteFields
  by_cases h1 : !(strTruthy data.citationKey) && strTruthy rawData.citationKey <;>
    simp [h1] <;> split <;> simp

/-- The effective cite-key preference produced by the two independent
patches: camel(data), then camel(raw), then hyphen(data), then
hyphen(raw). -/
theorem patchCiteFields_effective (data rawData : RawFields) :
    tsOr (patchCiteFields data rawData).citationKey
        (tsOr (patchCiteFields data rawData).citationHyphenKey none)
      = tsOr data.citationKey (tsOr rawData.citationKey
          (tsOr data.citationHyphenKey (tsOr rawData.citationHyphenKey none))) := by
  unfold patchCiteFields
  by_cases h1 : strTruthy data.citationKey <;>
    by_cases h2 : strTruthy rawData.citationKey <;>
      by_cases h3 : strTruthy data.citationHyphenKey <;>
        by_cases h4 : strTruthy rawData.citationHyphenKey <;>
          simp [tsOr, h1, h2, h3, h4]

/-- The raw detail record whose `data` has only the hyphenated cite-key
`"H"`. -/
def itemH : RawItem :=
  { fields := { emptyRawFields with key := some "K" }
    data := some { emptyRawFields with citationHyphenKey := some "H" }
    meta := none }

/-- Raw response metadata carrying the camel-case cite-key `"R"`. -/
def rawR : RawFields := { emptyRawFields with citationKey := some "R" }

/-- A user-library settings value. -/
def settingsU : ZoteroConnectorSettings :=
  { webApiEnabled := true
    webApiLibraryType := LibraryType.user
    webApiUserId := some "42"
    webApiGroupId := none
    exportFormats := []
    openNoteAfterImport := false }

/-- C5 counterexample: for the item-detail path the claimed order fails.
With `data['citation-key'] = "H"`, no `data.citationKey`, and
`raw.data.citationKey = "R"`, the claimed order (camel → hyphen →
secondary camel → secondary hyphen) yields `"H"`, but the code's
per-field patching yields `"R"`. -/
theorem claim_C5_counterexample :
    ((webApiGetItem [] (some itemH) rawR).map
        (fun d => (buildWebApiTemplateData "" d settingsU [] 0).citekey)) = some (some "R") ∧
    specCiteKeyOrder none (some "H") (some "R") none = some "H" ∧
    ¬(((webApiGetItem [] (some itemH) rawR).map
        (fun d => (buildWebApiTemplateData "" d settingsU [] 0).citekey)) = some (some "H")) := by
  refine ⟨?_, ?_, ?_⟩ <;> decide

/-- C5 (amended): search hits follow exactly the order camel-case field
→ hyphenated field → the same two fields at the secondary location (the
top-level item); for item details, each field is merged from the raw
metadata independently (camel: data then raw; hyphen: data then raw)
before the camel-over-hyphen preference, so the effective order is
camel(data) → camel(raw) → hyphen(data) → hyphen(raw); with no truthy
field anywhere the cite key is absent. -/
theorem claim_C5_citekey_order :
    (∀ item : RawItem,
      (normalizeSearchHit item).citekey
        = specCiteKeyOrder (item.data.getD item.fields).citationKey
            (item.data.getD item.fields).citationHyphenKey
            item.fields.citationKey item.fields.citationHyphenKey) ∧
    (∀ (env : List CollectionInfo) (item : RawItem) (rawData : RawFields)
        (d : WebApiItemDetail), webApiGetItem env (some item) rawData = some d →
      tsOr d.data.citationKey (tsOr d.data.citationHyphenKey none)
        = tsOr (item.data.getD item.fields).citationKey
            (tsOr rawData.citationKey
              (tsOr (item.data.getD item.fields).citationHyphenKey
                (tsOr rawData.citationHyphenKey none)))) := by
  constructor
  · intro item; rfl
  · intro env item rawData d hd
    unfold webApiGetItem at hd
    dsimp only at hd
    have hdd : d.data = patchCiteFields (item.data.getD item.fields) rawData := by
      have h2 := Option.some.inj hd
      rw [← h2]
    rw [hdd]
    exact patchCiteFields_effective _ _

/-- The detail produced by `webApiGetItem` on `itemH`/`rawR`. -/
def detailH : WebApiItemDetail :=
  { key := some "K"
    data := { emptyRawFields with citationKey := some "R", citationHyphenKey := some "H" }
    collections := CollectionsField.absent
    citation := ""
    bibliography := "" }

/-- Witness for C5 (amended), exercising the detail-path conjunct at a
concrete record. -/
theorem claim_C5_witness :
    tsOr detailH.data.citationKey (tsOr detailH.data.citationHyphenKey none)
      = tsOr (itemH.data.getD itemH.fields).citationKey
          (tsOr rawR.citationKey
            (tsOr (itemH.data.getD itemH.fields).citationHyphenKey
              (tsOr rawR.citationHyphenKey none))) :=
  claim_C5_citekey_order.2 [] itemH rawR detailH (by decide)

/-- C6: `isFirstImport` in the built template data is `true` exactly
when `lastImportDate` is the epoch sentinel `0`; it is computed by the
builder from `lastImportDate` alone, never passed in by callers. -/
theorem claim_C6_isFirstImport_iff_epoch (sourcePath : String) (detail : WebApiItemDetail)
    (settings : ZoteroConnectorSettings) (notes : List String) (lastImportDate : Int) :
    ((buildWebApiTemplateData sourcePath detail settings notes lastImportDate).isFirstImport
        = true)
      ↔ lastImportDate = 0 := by
  simp [buildWebApiTemplateData, applyBasicTemplates]

/-- The raw item with no fields at all. -/
def emptyRawItem : RawItem := { fields := emptyRawFields, data := none, meta := none }

/-- C9 counterexample: a raw record with no key anywhere is accepted by
both normalizers (the search path rejects nothing, the detail path only
rejects a null item), yet the canonical record's `key` is absent. -/
theorem claim_C9_counterexample :
    (normalizeSearchHit emptyRawItem).key = none ∧
    ((webApiGetItem [] (some emptyRawItem) emptyRawFields).map (fun d => d.key))
      = some none := by
  constructor <;> decide

/-- The raw item carrying only a top-level key. -/
def keyOnlyItem : RawItem :=
  { fields := { emptyRawFields with key := some "K" }, data := none, meta := none }

/-- C9 (amended): the canonical record's `key` is present whenever the
raw record carries a key at the top level or in its `data` sub-object
(both normalizers read `item.key ?? data.key`); every other optional
field may be absent — the key-only record normalizes with `title`,
`itemType`, `creators`, `date` and `citekey` all absent (while the
converted `citation`/`bibliography` degrade to empty strings rather
than being absent). -/
theorem claim_C9_key_present :
    (∀ item : RawItem,
      (item.fields.key.isSome || (item.data.getD item.fields).key.isSome) = true →
      (normalizeSearchHit item).key.isSome = true) ∧
    (∀ (env : List CollectionInfo) (item : RawItem) (rawData : RawFields)
        (d : WebApiItemDetail), webApiGetItem env (some item) rawData = some d →
      (item.fields.key.isSome || (item.data.getD item.fields).key.isSome) = true →
      d.key.isSome = true) ∧
    ((normalizeSearchHit keyOnlyItem).key = some "K" ∧
     (normalizeSearchHit keyOnlyItem).title = none ∧
     (normalizeSearchHit keyOnlyItem).itemType = none ∧
     (normalizeSearchHit keyOnlyItem).creators = none ∧
     (normalizeSearchHit keyOnlyItem).date = none ∧
     (normalizeSearchHit keyOnlyItem).citekey = none ∧
     (normalizeSearchHit keyOnlyItem).citation = "" ∧
     (normalizeSearchHit keyOnlyItem).bibliography = "") := by
  refine ⟨?_, ?_, ?_⟩
  · intro item h
    unfold normalizeSearchHit
    dsimp only
    cases hk : item.fields.key with
    | some k => simp [tsCoalesce, hk]
    | none =>
      rw [hk] at h
      simp only [Option.isSome_none, Bool.false_or] at h
      simpa [tsCoalesce, hk] using h
  · intro env item rawData d hd h
    unfold webApiGetItem at hd
    dsimp only at hd
    have hkk : d.key
        = tsCoalesce item.fields.key
            (patchCiteFields (item.data.getD item.fields) rawData).key := by
      have h2 := Option.some.inj hd
      rw [← h2]
    rw [hkk, patchCiteFields_key]
    cases hk : item.fields.key with
    | some k => simp [tsCoalesce, hk]
    | none =>
      rw [hk] at h
      simp only [Option.isSome_none, Bool.false_or] at h
      simpa [tsCoalesce, hk] using h
  · decide

/-- The detail produced by `webApiGetItem` on the key-only record. -/
def detailK : WebApiItemDetail :=
  { key := some "K"
    data := { emptyRawFields with key := some "K" }
    collections := CollectionsField.absent
    citation := ""
    bibliography := "" }

/-- Witness for C9 (amended): the key-only record keeps its key through
both normalizers. -/
theorem claim_C9_witness :
    (normalizeSearchHit keyOnlyItem).key.isSome = true ∧
    detailK.key.isSome = true :=
  ⟨claim_C9_key_present.1 keyOnlyItem (by decide),
   claim_C9_key_present.2.1 [] keyOnlyItem emptyRawFields detailK (by decide) (by decide)⟩

/-- An item detail whose key is the empty string and whose data has no
cite-key fields. -/
def detailEmptyKey : WebApiItemDetail :=
  { key := some ""
    data := emptyRawFields
    collections := CollectionsField.absent
    citation := ""
    bibliography := "" }

/-- C10 counterexample: with an empty-string item key and no cite-key
fields, the built template data's `citekey` is the empty string — not
non-empty as claimed. -/
theorem claim_C10_counterexample :
    (buildWebApiTemplateData "" detailEmptyKey settingsU [] 0).citekey = some "" ∧
    strTruthy (buildWebApiTemplateData "" detailEmptyKey settingsU [] 0).citekey = false := by
  constructor <;> decide

/-- C10 (amended): provided the detail's key is a non-empty string (the
normalizer's best-effort invariant), the built template data always has
a truthy (present, non-empty) `citekey`, `citationKey` always equals
`citekey`, and when neither the camel-case nor the hyphenated cite-key
field of the item data is truthy, `citekey` falls back to the item's
key. -/
theorem claim_C10_citekey_fallback (sourcePath : String) (detail : WebApiItemDetail)
    (settings : ZoteroConnectorSettings) (notes : List String) (lastImportDate : Int)
    (k : String) (hk : detail.key = some k) (hne : k ≠ "") :
    strTruthy (buildWebApiTemplateData sourcePath detail settings notes
        lastImportDate).citekey = true ∧
    (buildWebApiTemplateData sourcePath detail settings notes lastImportDate).citationKey
      = (buildWebApiTemplateData sourcePath detail settings notes lastImportDate).citekey ∧
    (strTruthy detail.data.citationKey = false →
     strTruthy detail.data.citationHyphenKey = false →
     (buildWebApiTemplateData sourcePath detail settings notes lastImportDate).citekey
       = detail.key) := by
  unfold buildWebApiTemplateData applyBasicTemplates
  dsimp only
  refine ⟨?_, rfl, ?_⟩
  · by_cases h1 : strTruthy detail.data.citationKey
    · simp [tsOr, h1]
    · by_cases h2 : strTruthy detail.data.citationHyphenKey
      · simp [tsOr, h1, h2]
      · unfold tsOr
        rw [if_neg h1, if_neg h2, hk]
        simp [strTruthy, hne]
  · intro h1 h2
    simp [tsOr, h1, h2]

/-- Witness for C10 (amended) at the key-only detail. -/
theorem claim_C10_witness :
    strTruthy (buildWebApiTemplateData "" detailK settingsU [] 0).citekey = true ∧
    (buildWebApiTemplateData "" detailK settingsU [] 0).citekey = detailK.key := by
  have h := claim_C10_citekey_fallback "" detailK settingsU [] 0 "K" (by decide) (by decide)
  exact ⟨h.1, h.2.2 (by decide) (by decide)⟩

/-- The raw item that names the unresolved collection `"KK"` in its
data. -/
def itemC : RawItem :=
  { fields := { emptyRawFields with key := some "I", collections := some ["KK"] }
    data := none
    meta := none }

/-- C7 counterexample: when collection resolution fails (here: the
library is empty, so the fetch of `"KK"` rejects), the collections
field keeps the prior unresolved key list `["KK"]` — it is not degraded
to an empty collection list. -/
theorem claim_C7_counterexample :
    ((webApiGetItem [] (some itemC) emptyRawFields).map (fun d => d.collections))
      = some (CollectionsField.keys ["KK"]) ∧
    ¬(((webApiGetItem [] (some itemC) emptyRawFields).map (fun d => d.collections))
      = some (CollectionsField.keys [])) ∧
    ¬(((webApiGetItem [] (some itemC) emptyRawFields).map (fun d => d.collections))
      = some (CollectionsField.resolved [])) := by
  refine ⟨?_, ?_, ?_⟩ <;> decide

/-- C7 (amended): a collection-resolution failure never aborts
`webApiGetItem` — the detail is still returned and the import pipeline
continues — and on failure the `collections` slot keeps its prior
unresolved value (the raw key list, or absence), the error being only
logged. -/
theorem claim_C7_enrichment_failure_continues
    (env : List CollectionInfo) (item : RawItem) (rawData : RawFields) :
    (webApiGetItem env (some item) rawData).isSome = true ∧
    ((buildCollectionsWithFullPath env
        ((tsCoalesce rawData.collections
          (patchCiteFields (item.data.getD item.fields) rawData).collections).getD [])).1
        = none →
      (webApiGetItem env (some item) rawData).map (fun d => d.collections)
        = some (collectionsFieldOf
            (patchCiteFields (item.data.getD item.fields) rawData).collections)) := by
  constructor
  · rfl
  · intro hfail
    unfold webApiGetItem resolveDetailCollections
    dsimp only
    by_cases hlen : 0 < ((tsCoalesce rawData.collections
        (patchCiteFields (item.data.getD item.fields) rawData).collections).getD []).length
    · simp only [hlen, if_true]
      rw [hfail]
      rfl
    · simp [hlen]

/-- Witness for C7 (amended) at the concrete failing resolution. -/
theorem claim_C7_witness :
    (webApiGetItem [] (some itemC) emptyRawFields).isSome = true ∧
    (webApiGetItem [] (some itemC) emptyRawFields).map (fun d => d.collections)
      = some (collectionsFieldOf
          (patchCiteFields (itemC.data.getD itemC.fields) emptyRawFields).collections) := by
  have h := claim_C7_enrichment_failure_continues [] itemC emptyRawFields
  exact ⟨h.1, h.2 (by decide)⟩

/-! ## Import orchestrator (src/unnamed/part_002, `runWebApiImport`) -/

/-- How one `runWebApiImport` invocation ends.  Every constructor but
`imported` corresponds to an early return or to the top-level `catch`
of the source (a thrown step aborts the remainder of the `try` block). -/
inductive Outcome where
  | disabled : Outcome
  | missingLibraryId : Outcome
  | noSearchTerm : Outcome
  | missingApiKey : Outcome
  | searchFailed : Outcome
  | noItems : Outcome
  | noFormat : Outcome
  | cancelled : Outcome
  | detailFetchFailed : Outcome
  | detailMissing : Outcome
  | notesFailed : Outcome
  | pathRenderFailed : Outcome
  | renderFailed : Outcome
  | emptyRender : Outcome
  | imported : Outcome
deriving Repr, DecidableEq

/-- The local document store: path/content pairs.  Directories are not
documents, so `mkMDDir` does not appear in it. -/
abbrev VaultState := List (String × String)

/-- `app.vault.getAbstractFileByPath` plus `read`: the stored content at
a path, when the document exists. -/
def vaultLookup (vault : VaultState) (path : String) : Option String :=
  (vault.find? (fun e => e.1 == path)).map (fun e => e.2)

/-- `app.vault.modify`: replace the content of an existing document. -/
def vaultModify (vault : VaultState) (path content : String) : VaultState :=
  vault.map (fun e => if e.1 == path then (e.1, content) else e)

/-- `app.vault.create`: add a new document. -/
def vaultCreate (vault : VaultState) (path content : String) : VaultState :=
  vault ++ [(path, content)]

/-- `resolveWebApiImportFormat` of the source: an explicit format wins;
otherwise the format named `Import #1`, else the first configured one;
none with an empty format list. -/
def resolveWebApiImportFormat (settings : ZoteroConnectorSettings)
    (format? : Option ExportFormat) : Option ExportFormat :=
  match format? with
  | some f => some f
  | none =>
    match settings.exportFormats with
    | [] => none
    | f0 :: _ => some ((settings.exportFormats.find? (fun f => f.name == "Import #1")).getD f0)

/-- Modelled from the spec: `removeStartingSlash` (bbt helper outside
the provided sources) strips a leading path separator; a pure string
transform, irrelevant to the claims. -/
def removeStartingSlash (s : String) : String :=
  if s.startsWith "/" then s.drop 1 else s

/-- Modelled from the spec: `sanitizeFilePath` (bbt helper outside the
provided sources) is a pure path transform; taken as the identity. -/
def sanitizeFilePath (s : String) : String := s

/-- Modelled from the spec: the host's `normalizePath` is a pure path
transform; taken as the identity. -/
def normalizePath (s : String) : String := s

/-- The external collaborators of one import run, each modelled by its
outcome (spec section 6): the prompt results, the transport responses
(`none` = the awaited call rejected), the selection function, the
collection library behind the enrichment step, and the two external
render calls (path template and note template; `none` = render threw).
`getAnnotations`/`getLastExport` model the pure extraction helpers over
the pre-existing document content. -/
structure ImportEnv where
  settings : ZoteroConnectorSettings
  format : Option ExportFormat
  term : Option String
  apiKey : String
  searchResponse : Option (List RawItem)
  chooseItem : List WebApiSearchResult → Option WebApiSearchResult
  collectionsLibrary : List CollectionInfo
  itemResponse : Option (Option RawItem × RawFields)
  notesResponse : Option (List String)
  templatePath : String
  pathRender : String → TemplateData → Option String
  contentRender : TemplateData → String → String → Option String
  getAnnotations : String → String
  getLastExport : String → Int

/-- `runWebApiImport` of the source, sequenced exactly as the code:
configuration guards, prompt, search (attachments filtered), format
resolution, selection (cancellation is silent), detail fetch (with the
collection enrichment inside `webApiGetItem`), note fetch, the
path-template build against the epoch, the path render, the read of any
pre-existing document (annotations and last-import timestamp extracted
from it, epoch when absent), the content-template build against the
true timestamp, the content render, the falsy-render early return, and
only then the single write (modify when the document exists, create
otherwise).  Every failure before the write returns the vault
untouched. -/
def runWebApiImport (env : ImportEnv) (vault : VaultState) : Outcome × VaultState :=
  if !env.settings.webApiEnabled then (Outcome.disabled, vault)
  else if (env.settings.webApiLibraryType == LibraryType.user
            && !(strTruthy env.settings.webApiUserId))
        || (env.settings.webApiLibraryType == LibraryType.group
            && !(strTruthy env.settings.webApiGroupId)) then
    (Outcome.missingLibraryId, vault)
  else if !(strTruthy env.term) then (Outcome.noSearchTerm, vault)
  else if env.apiKey == "" then (Outcome.missingApiKey, vault)
  else
    match env.searchResponse with
    | none => (Outcome.searchFailed, vault)
    | some rawItems =>
      let results := webApiSearchItems rawItems
      let filtered := results.filter (fun r => r.itemType != some "attachment")
      if filtered.isEmpty then (Outcome.noItems, vault)
      else
        match resolveWebApiImportFormat env.settings env.format with
        | none => (Outcome.noFormat, vault)
        | some resolvedFormat =>
          match env.chooseItem filtered with
          | none => (Outcome.cancelled, vault)
          | some _selected =>
            match env.itemResponse with
            | none => (Outcome.detailFetchFailed, vault)
            | some (rawItem?, rawData) =>
              match webApiGetItem env.collectionsLibrary rawItem? rawData with
              | none => (Outcome.detailMissing, vault)
              | some detail =>
                match env.notesResponse with
                | none => (Outcome.notesFailed, vault)
                | some notes =>
                  let sourcePath := env.templatePath
                  let pathTemplateData :=
                    buildWebApiTemplateData sourcePath detail env.settings notes 0
                  match env.pathRender resolvedFormat.outputPathTemplate pathTemplateData with
                  | none => (Outcome.pathRenderFailed, vault)
                  | some renderedPath =>
                    let markdownPath :=
                      normalizePath (sanitizeFilePath (removeStartingSlash renderedPath))
                    let existing := vaultLookup vault markdownPath
                    let existingContent := existing.getD ""
                    let existingAnnotationBlock :=
                      match existing with
                      | some _ => env.getAnnotations existingContent
                      | none => ""
                    let lastImportDate :=
                      match existing with
                      | some _ => env.getLastExport existingContent
                      | none => 0
                    let templateData :=
                      buildWebApiTemplateData sourcePath detail env.settings notes lastImportDate
                    match env.contentRender templateData existingContent existingAnnotationBlock with
                    | none => (Outcome.renderFailed, vault)
                    | some rendered =>
                      if rendered == "" then (Outcome.emptyRender, vault)
                      else
                        match existing with
                        | some _ => (Outcome.imported, vaultModify vault markdownPath rendered)
                        | none => (Outcome.imported, vaultCreate vault markdownPath rendered)

/-- C8: the local document store changes only when the run reaches the
final write — every failure or early return in search, selection,
detail fetch, note fetch, template build, path or content render leaves
the vault exactly as it was, because the single create-or-modify is the
last step after all fallible computation (enrichment failures are
absorbed earlier, inside `webApiGetItem`). -/
theorem claim_C8_no_write_unless_imported (env : ImportEnv) (vault : VaultState) :
    (runWebApiImport env vault).2 = vault ∨ (runWebApiImport env vault).1 = Outcome.imported := by
  simp only [runWebApiImport]
  repeat' split
  all_goals first | (left; rfl) | (right; rfl)
